import Mathlib

/-!
Shallow embedding of `picture_frame.py` (PictureFrame desktop widget).

The embedding models:
* the frame aperture detector `calculate_frame_photo_area` (alpha-channel
  scan over a decoded RGBA image, with its fallback policy),
* frame loading (`load_frames`) and the paint-branch selection of
  `paintEvent` / `get_current_frame_pixmap`,
* slideshow advance (`next_image`, `next_frame`),
* the Qt cover-and-crop scaling used in `paintEvent`
  (`QSize.scaled` with `KeepAspectRatioByExpanding`, then center crop),
* the mouse drag/resize state machine
  (`mousePressEvent` / `mouseMoveEvent` / `mouseReleaseEvent`).

Images are modelled by their alpha channel only: a width, a height, and a
total function giving the alpha value at (row, column).  Ratios are exact
rationals; Python float arithmetic on these small integer ratios is exact
enough that the branch structure is identical.
-/

/-- A decoded image, reduced to its alpha channel.
`alpha r c` is the alpha value at row `r`, column `c` (0-255);
only indices with `r < height`, `c < width` are ever consulted. -/
structure Img where
  width : Nat
  height : Nat
  alpha : Nat → Nat → Nat

/-- The four ratios stored in `frame_photo_areas` for one frame path. -/
structure Aperture where
  left_ratio : ℚ
  top_ratio : ℚ
  width_ratio : ℚ
  height_ratio : ℚ
deriving DecidableEq, Repr

/-- The fixed fallback aperture (20% border / centered 60% rectangle). -/
def fallbackAperture : Aperture := ⟨1/5, 1/5, 3/5, 3/5⟩

/-- Truthiness of `alpha.getbbox()`: it is non-`None` iff some pixel has nonzero alpha. -/
def hasNonzeroAlpha (img : Img) : Bool :=
  (List.range img.height).any fun r =>
    (List.range img.width).any fun c => img.alpha r c != 0

/-- Number of transparent pixels (`alpha < 250`) in row `r`
(`np.mean(alpha_array < transparent_threshold, axis=1)` numerator). -/
def transparentRowCount (img : Img) (r : Nat) : Nat :=
  ((List.range img.width).filter fun c => img.alpha r c < 250).length

/-- Row `r` is transparent when its transparent fraction exceeds 1/2. -/
def rowTransparent (img : Img) (r : Nat) : Bool :=
  decide (img.width < 2 * transparentRowCount img r)

/-- Model of `np.where(row_transparency > 0.5)[0]`: indices of transparent rows,
in increasing order. -/
def transparentRowList (img : Img) : List Nat :=
  (List.range img.height).filter fun r => rowTransparent img r

/-- Number of transparent pixels (`alpha < 250`) in column `c`. -/
def transparentColCount (img : Img) (c : Nat) : Nat :=
  ((List.range img.height).filter fun r => img.alpha r c < 250).length

/-- Column `c` is transparent when its transparent fraction exceeds 1/2. -/
def colTransparent (img : Img) (c : Nat) : Bool :=
  decide (img.height < 2 * transparentColCount img c)

/-- Indices of transparent columns, in increasing order. -/
def transparentColList (img : Img) : List Nat :=
  (List.range img.width).filter fun c => colTransparent img c

/-- First and last element of an index list, or `(0, dflt)` when it is
empty (the shared shape of the row and column scans). -/
def scanBounds (l : List Nat) (dflt : Nat) : Nat × Nat :=
  match l with
  | [] => (0, dflt)
  | a :: t => (a, (a :: t).getLast (List.cons_ne_nil a t))

/-- Model of `top = transparent_rows[0]; bottom = transparent_rows[-1]`,
or `(0, height)` when no row is transparent. -/
def rowBounds (img : Img) : Nat × Nat :=
  scanBounds (transparentRowList img) img.height

/-- Model of `left = transparent_cols[0]; right = transparent_cols[-1]`,
or `(0, width)` when no column is transparent. -/
def colBounds (img : Img) : Nat × Nat :=
  scanBounds (transparentColList img) img.width

/-- The alpha-scan of `calculate_frame_photo_area` on a decoded image:
if `alpha.getbbox()` is non-`None`, scan rows and columns and store the
four ratios; otherwise store the fallback. -/
def detect (img : Img) : Aperture :=
  if hasNonzeroAlpha img then
    let tb := rowBounds img
    let lr := colBounds img
    { left_ratio := (lr.1 : ℚ) / img.width
      top_ratio := (tb.1 : ℚ) / img.height
      width_ratio := ((lr.2 : ℚ) - lr.1) / img.width
      height_ratio := ((tb.2 : ℚ) - tb.1) / img.height }
  else fallbackAperture

/-- The aperture computed for one frame path: a decode (or processing)
error is caught and yields the fallback; otherwise the alpha scan runs. -/
def calcAperture : Except String Img → Aperture
  | .error _ => fallbackAperture
  | .ok img => detect img

/-- Model of `calculate_frame_photo_area`: stores the computed aperture for
`path` into the `frame_photo_areas` mapping (association list; `lookup`
takes the most recent binding, matching dict assignment). -/
def calculate_frame_photo_area (areas : List (String × Aperture))
    (path : String) (decoded : Except String Img) :
    List (String × Aperture) :=
  (path, calcAperture decoded) :: areas

/-- The frame-related fields of the widget. -/
structure FramesState where
  frames : List String
  current_frame_index : Nat
  use_custom_frame : Bool
  frame_photo_areas : List (String × Aperture)
deriving DecidableEq

/-- The frame fields as initialised in `__init__` (before `load_frames`):
no frames, index 0, `use_custom_frame = True`, empty area cache. -/
def initFramesState : FramesState := ⟨[], 0, true, []⟩

/-- Model of `load_frames`: if the Frames folder does not exist, return at once;
otherwise set `frames` to the sorted file list, disable custom frames
when it is empty, and otherwise compute an aperture for every frame.
`decodeOf` gives the decode result for each path. -/
def load_frames (dirExists : Bool) (files : List String)
    (decodeOf : String → Except String Img) (s : FramesState) :
    FramesState :=
  if !dirExists then s
  else
    let frames := files.mergeSort
    if frames.isEmpty then
      { s with frames := frames, use_custom_frame := false }
    else
      { s with
          frames := frames
          frame_photo_areas :=
            frames.foldl
              (fun m p => calculate_frame_photo_area m p (decodeOf p))
              s.frame_photo_areas }

/-- Model of `get_current_frame_pixmap`: it returns a pixmap (`true`) or `None`
(`false`); `decodeOk` tells whether decoding the current frame works. -/
def get_current_frame_pixmap (s : FramesState) (decodeOk : Bool) : Bool :=
  if !s.use_custom_frame || s.frames.isEmpty then false else decodeOk

/-- The two branches of `paintEvent`. -/
inductive PaintBranch where
  | customFrame
  | procedural
deriving DecidableEq

/-- Branch taken by `paintEvent`:
`if frame_pix and self.use_custom_frame` chooses the custom branch. -/
def paintBranch (s : FramesState) (decodeOk : Bool) : PaintBranch :=
  if get_current_frame_pixmap s decodeOk && s.use_custom_frame then
    .customFrame
  else .procedural

/-- Model of `next_frame`: no-op on an empty frame list; otherwise advance the
index modulo the length and lazily compute a missing aperture. -/
def next_frame (decodeOf : String → Except String Img)
    (s : FramesState) : FramesState :=
  if s.frames.isEmpty then s
  else
    let idx := (s.current_frame_index + 1) % s.frames.length
    let current := s.frames.getD idx ""
    let areas :=
      if (s.frame_photo_areas.lookup current).isSome then
        s.frame_photo_areas
      else calculate_frame_photo_area s.frame_photo_areas current
        (decodeOf current)
    { s with current_frame_index := idx, frame_photo_areas := areas }

/-- Model of `next_image` acting on the photo index: no-op on an empty list,
otherwise increment modulo the length. -/
def next_image (images : List String) (index : Nat) : Nat :=
  if images.isEmpty then index else (index + 1) % images.length

/-- Model of `QSize.scaled` with `Qt.KeepAspectRatioByExpanding` (Qt's integer
formula): the smallest size at least `tgt` in both dimensions keeping
the source aspect ratio. -/
def scaledKeepAspectByExpanding (srcW srcH tgtW tgtH : Nat) : Nat × Nat :=
  if srcW = 0 || srcH = 0 then (tgtW, tgtH)
  else
    let rw := tgtH * srcW / srcH
    if tgtW ≤ rw then (rw, tgtH) else (tgtW, tgtW * srcH / srcW)

/-- Center-crop offsets used in `paintEvent`:
`x = (scaled.width() - W) // 2`, `y = (scaled.height() - H) // 2`. -/
def cropOffsets (sw sh w h : Nat) : Nat × Nat :=
  ((sw - w) / 2, (sh - h) / 2)

/-- Size semantics of `QPixmap.copy(x, y, w, h)`: it always yields a pixmap of size `w × h`. -/
def croppedSize (w h : Nat) : Nat × Nat := (w, h)

/-- The crop rectangle lies inside the scaled image, so the copy holds
only scaled-photo pixels (no letterbox padding). -/
def cropWithin (sw sh x y w h : Nat) : Bool :=
  decide (x + w ≤ sw ∧ y + h ≤ sh)

/-- Geometry and mouse-interaction fields of the widget. -/
structure WidgetState where
  posx : Int
  posy : Int
  width : Nat
  height : Nat
  dragging : Bool
  drag_offset_x : Int
  drag_offset_y : Int
  resizing : Bool
  resize_origin_x : Int
  resize_origin_y : Int
  start_w : Nat
  start_h : Nat
  is_locked : Bool
  click_through : Bool
deriving DecidableEq

/-- A mouse event: press (with button, widget-local position and global
position), move (global position), or release. -/
inductive MouseEvent where
  | press (leftButton : Bool) (lx ly gx gy : Int)
  | move (gx gy : Int)
  | release
deriving DecidableEq

/-- Model of `start_resize`: record the origin and starting size. -/
def start_resize (gx gy : Int) (s : WidgetState) : WidgetState :=
  { s with
      resizing := true
      resize_origin_x := gx
      resize_origin_y := gy
      start_w := s.width
      start_h := s.height }

/-- Model of `mousePressEvent`: ignored when locked or click-through; a left
press in the 40-pixel bottom-right corner starts a resize, elsewhere it
starts a drag with offset `globalPos - frameGeometry().topLeft()`. -/
def mousePressEvent (leftButton : Bool) (lx ly gx gy : Int)
    (s : WidgetState) : WidgetState :=
  if s.is_locked || s.click_through then s
  else if leftButton then
    if lx > (s.width : Int) - 40 && ly > (s.height : Int) - 40 then
      start_resize gx gy s
    else
      { s with
          dragging := true
          drag_offset_x := gx - s.posx
          drag_offset_y := gy - s.posy }
  else s

/-- Model of `mouseMoveEvent`: ignored when locked or click-through; while
resizing, set the size to the start size plus the cursor delta, clamped
below by 240 × 180; while dragging, move the window. -/
def mouseMoveEvent (gx gy : Int) (s : WidgetState) : WidgetState :=
  if s.is_locked || s.click_through then s
  else if s.resizing then
    let dx := gx - s.resize_origin_x
    let dy := gy - s.resize_origin_y
    let new_w := max 240 ((s.start_w : Int) + dx)
    let new_h := max 180 ((s.start_h : Int) + dy)
    { s with width := new_w.toNat, height := new_h.toNat }
  else if s.dragging then
    { s with posx := gx - s.drag_offset_x, posy := gy - s.drag_offset_y }
  else s

/-- Model of `mouseReleaseEvent`: ends dragging and resizing unconditionally. -/
def mouseReleaseEvent (s : WidgetState) : WidgetState :=
  { s with dragging := false, resizing := false }

/-- One mouse event dispatched to its handler. -/
def stepEvent : MouseEvent → WidgetState → WidgetState
  | .press b lx ly gx gy, s => mousePressEvent b lx ly gx gy s
  | .move gx gy, s => mouseMoveEvent gx gy s
  | .release, s => mouseReleaseEvent s

/-- A sequence of mouse events processed in order. -/
def runEvents (es : List MouseEvent) (s : WidgetState) : WidgetState :=
  es.foldl (fun t e => stepEvent e t) s

/-- A frame image whose alpha channel is 0 exactly on the rectangle of
rows `[r0, r1]` and columns `[c0, c1]` and 255 everywhere else. -/
def rectImg (w h r0 r1 c0 c1 : Nat) : Img :=
  ⟨w, h, fun r c =>
    if r0 ≤ r ∧ r ≤ r1 ∧ c0 ≤ c ∧ c ≤ c1 then 0 else 255⟩

/-- The invariant the spec expects of every stored aperture. -/
def apertureInvariant (a : Aperture) : Prop :=
  0 ≤ a.left_ratio ∧ a.left_ratio ≤ 1 ∧
  0 ≤ a.top_ratio ∧ a.top_ratio ≤ 1 ∧
  0 ≤ a.width_ratio ∧ a.width_ratio ≤ 1 ∧
  0 ≤ a.height_ratio ∧ a.height_ratio ≤ 1 ∧
  a.left_ratio + a.width_ratio ≤ 1 ∧
  a.top_ratio + a.height_ratio ≤ 1

/-- A concrete 2 × 2 image used as input in several witnesses. -/
def opaqueImg : Img := ⟨2, 2, fun _ _ => 255⟩

/-- A locked widget state used in the C9 witness. -/
def lockedWidget : WidgetState :=
  ⟨100, 100, 520, 380, false, 0, 0, false, 0, 0, 520, 380, true, false⟩

/-- A widget state in the middle of a resize, for the C10 witness. -/
def resizingWidget : WidgetState :=
  ⟨100, 100, 520, 380, false, 0, 0, true, 600, 460, 520, 380, false,
    false⟩

/-- Evaluation helper: `detect` in terms of the Nat-level scan results. -/
theorem detect_eval (img : Img) (t b l r : Nat)
    (h0 : hasNonzeroAlpha img = true)
    (hrb : rowBounds img = (t, b)) (hcb : colBounds img = (l, r)) :
    detect img =
      ⟨(l : ℚ) / img.width, (t : ℚ) / img.height,
       ((r : ℚ) - l) / img.width, ((b : ℚ) - t) / img.height⟩ := by
  simp [detect, h0, hrb, hcb]

example : detect ⟨2, 2, fun _ _ => 255⟩ = ⟨0, 0, 1, 1⟩ := by
  rw [detect_eval ⟨2, 2, fun _ _ => 255⟩ 0 2 0 2 (by decide) (by decide)
    (by decide)]
  norm_num

example : detect ⟨2, 2, fun _ _ => 0⟩ = fallbackAperture := by
  have h : hasNonzeroAlpha ⟨2, 2, fun _ _ => 0⟩ = false := by decide
  simp [detect, h]

example :
    detect ⟨4, 4, fun r c => if r ≤ 2 ∧ c ≤ 2 then 0 else 255⟩ =
      ⟨0, 0, 1/2, 1/2⟩ := by
  rw [detect_eval _ 0 2 0 2 (by decide) (by decide) (by decide)]
  norm_num

/-!  Support lemmas about the scan lists and bounds.  -/

/-- A strictly increasing list starts at (or below) its last element. -/
theorem pairwise_head_le_getLast {l : List Nat}
    (hp : l.Pairwise (· < ·)) (h : l ≠ []) :
    l.head h ≤ l.getLast h := by
  match l with
  | [a] => simp
  | a :: b :: t =>
    have h2 : (b :: t) ≠ [] := List.cons_ne_nil b t
    have hmem : (a :: b :: t).getLast h ∈ b :: t := by
      rw [List.getLast_cons h2]
      exact List.getLast_mem h2
    exact Nat.le_of_lt ((List.pairwise_cons.mp hp).1 _ hmem)

/-- The transparent-row indices are strictly increasing. -/
theorem transparentRowList_pairwise (img : Img) :
    (transparentRowList img).Pairwise (· < ·) :=
  List.Pairwise.sublist (List.filter_sublist _)
    (List.pairwise_lt_range _)

/-- The transparent-column indices are strictly increasing. -/
theorem transparentColList_pairwise (img : Img) :
    (transparentColList img).Pairwise (· < ·) :=
  List.Pairwise.sublist (List.filter_sublist _)
    (List.pairwise_lt_range _)

/-- Every transparent-row index is a valid row. -/
theorem mem_transparentRowList_lt (img : Img) :
    ∀ r ∈ transparentRowList img, r < img.height := by
  intro r hr
  have := (List.mem_filter.mp hr).1
  exact List.mem_range.mp this

/-- Every transparent-column index is a valid column. -/
theorem mem_transparentColList_lt (img : Img) :
    ∀ c ∈ transparentColList img, c < img.width := by
  intro c hc
  have := (List.mem_filter.mp hc).1
  exact List.mem_range.mp this

/-- The first scan bound is at most the second. -/
theorem scanBounds_fst_le_snd {l : List Nat}
    (hp : l.Pairwise (· < ·)) (dflt : Nat) :
    (scanBounds l dflt).1 ≤ (scanBounds l dflt).2 := by
  unfold scanBounds
  split
  · exact Nat.zero_le _
  · next a t =>
    exact pairwise_head_le_getLast hp (List.cons_ne_nil a t)

/-- The second scan bound stays at most `n` when the list elements are
below `n` and the default is at most `n`. -/
theorem scanBounds_snd_le {l : List Nat} {n dflt : Nat}
    (hlt : ∀ x ∈ l, x < n) (hd : dflt ≤ n) :
    (scanBounds l dflt).2 ≤ n := by
  unfold scanBounds
  split
  · exact hd
  · next a t =>
    exact Nat.le_of_lt (hlt _ (List.getLast_mem (List.cons_ne_nil a t)))

/-- Row bounds: `top ≤ bottom`. -/
theorem rowBounds_fst_le_snd (img : Img) :
    (rowBounds img).1 ≤ (rowBounds img).2 :=
  scanBounds_fst_le_snd (transparentRowList_pairwise img) _

/-- Row bounds: `bottom ≤ height`. -/
theorem rowBounds_snd_le (img : Img) :
    (rowBounds img).2 ≤ img.height :=
  scanBounds_snd_le (mem_transparentRowList_lt img) (Nat.le_refl _)

/-- Column bounds: `left ≤ right`. -/
theorem colBounds_fst_le_snd (img : Img) :
    (colBounds img).1 ≤ (colBounds img).2 :=
  scanBounds_fst_le_snd (transparentColList_pairwise img) _

/-- Column bounds: `right ≤ width`. -/
theorem colBounds_snd_le (img : Img) :
    (colBounds img).2 ≤ img.width :=
  scanBounds_snd_le (mem_transparentColList_lt img) (Nat.le_refl _)

/-- Rational bounds for one axis of the stored ratios: offset and extent
ratios built from `a ≤ b ≤ n` with `0 < n` are in `[0, 1]` and sum to at
most 1. -/
theorem ratio_pair_bounds (a b n : Nat) (h1 : a ≤ b) (h2 : b ≤ n)
    (hn : 0 < n) :
    0 ≤ (a : ℚ) / n ∧ (a : ℚ) / n ≤ 1 ∧
    0 ≤ ((b : ℚ) - a) / n ∧ ((b : ℚ) - a) / n ≤ 1 ∧
    (a : ℚ) / n + ((b : ℚ) - a) / n ≤ 1 := by
  have hn' : (0 : ℚ) < (n : ℚ) := by exact_mod_cast hn
  have hab : (a : ℚ) ≤ (b : ℚ) := by exact_mod_cast h1
  have hbn : (b : ℚ) ≤ (n : ℚ) := by exact_mod_cast h2
  have ha0 : (0 : ℚ) ≤ (a : ℚ) := by positivity
  refine ⟨by positivity, ?_, ?_, ?_, ?_⟩
  · exact (div_le_one hn').mpr (le_trans hab hbn)
  · exact div_nonneg (by linarith) (le_of_lt hn')
  · exact (div_le_one hn').mpr (by linarith)
  · have : (a : ℚ) / n + ((b : ℚ) - a) / n = (b : ℚ) / n := by
      rw [div_add_div_same]; ring_nf
    rw [this]
    exact (div_le_one hn').mpr hbn

/-- The fallback aperture satisfies the invariant. -/
theorem fallback_invariant : apertureInvariant fallbackAperture := by
  norm_num [apertureInvariant, fallbackAperture]

/-- C4: every aperture stored by `calculate_frame_photo_area` — whether
from the alpha-scan branch, the empty-bbox fallback, or the exception
fallback — has all four ratios in `[0, 1]`, and satisfies
`left_ratio + width_ratio ≤ 1` and `top_ratio + height_ratio ≤ 1`
(a decoded image has positive dimensions). -/
theorem C4_stored_aperture_invariant (decoded : Except String Img)
    (hdim : ∀ img, decoded = .ok img → 0 < img.width ∧ 0 < img.height) :
    apertureInvariant (calcAperture decoded) := by
  match decoded with
  | .error e => exact fallback_invariant
  | .ok img =>
    obtain ⟨hw, hh⟩ := hdim img rfl
    show apertureInvariant (detect img)
    by_cases h0 : hasNonzeroAlpha img = true
    · rw [detect_eval img (rowBounds img).1 (rowBounds img).2
        (colBounds img).1 (colBounds img).2 h0 rfl rfl]
      have hc := ratio_pair_bounds (colBounds img).1 (colBounds img).2
        img.width (colBounds_fst_le_snd img) (colBounds_snd_le img) hw
      have hr := ratio_pair_bounds (rowBounds img).1 (rowBounds img).2
        img.height (rowBounds_fst_le_snd img) (rowBounds_snd_le img) hh
      exact ⟨hc.1, hc.2.1, hr.1, hr.2.1, hc.2.2.1, hc.2.2.2.1,
        hr.2.2.1, hr.2.2.2.1, hc.2.2.2.2, hr.2.2.2.2⟩
    · simp only [detect, h0, Bool.false_eq_true, if_false]
      exact fallback_invariant

/-- Witness for C4 at a concrete decoded image. -/
theorem C4_stored_aperture_invariant_witness :
    (∀ img, (Except.ok opaqueImg : Except String Img) = .ok img →
      0 < img.width ∧ 0 < img.height) ∧
    apertureInvariant (calcAperture (.ok opaqueImg)) := by
  have hdim : ∀ img, (Except.ok opaqueImg : Except String Img) = .ok img →
      0 < img.width ∧ 0 < img.height := by
    intro img h
    injection h with h1
    subst h1
    exact ⟨by decide, by decide⟩
  exact ⟨hdim, C4_stored_aperture_invariant (.ok opaqueImg) hdim⟩

/-- For a fully opaque image no row is transparent. -/
theorem transparentRowList_opaque (img : Img)
    (hop : ∀ r c, r < img.height → c < img.width → img.alpha r c = 255) :
    transparentRowList img = [] := by
  rw [transparentRowList, List.filter_eq_nil_iff]
  intro r hr
  have hcount : transparentRowCount img r = 0 := by
    rw [transparentRowCount, List.length_eq_zero, List.filter_eq_nil_iff]
    intro c hc
    have := hop r c (List.mem_range.mp hr) (List.mem_range.mp hc)
    simp [this]
  simp [rowTransparent, hcount]

/-- For a fully opaque image no column is transparent. -/
theorem transparentColList_opaque (img : Img)
    (hop : ∀ r c, r < img.height → c < img.width → img.alpha r c = 255) :
    transparentColList img = [] := by
  rw [transparentColList, List.filter_eq_nil_iff]
  intro c hc
  have hcount : transparentColCount img c = 0 := by
    rw [transparentColCount, List.length_eq_zero, List.filter_eq_nil_iff]
    intro r hr
    have := hop r c (List.mem_range.mp hr) (List.mem_range.mp hc)
    simp [this]
  simp [colTransparent, hcount]

/-- C1 (amended): for a fully opaque frame image with positive
dimensions the detector stores the whole-image aperture
`{left 0, top 0, width 1, height 1}`, not the fallback: the alpha
bounding box is non-empty, and with no transparent rows or columns the
scan takes the `top = 0, bottom = height, left = 0, right = width`
defaults.  The fallback is stored only when the alpha channel is
identically zero (or on a decode error). -/
theorem C1_opaque_detect (img : Img)
    (hw : 0 < img.width) (hh : 0 < img.height)
    (hop : ∀ r c, r < img.height → c < img.width → img.alpha r c = 255) :
    detect img = ⟨0, 0, 1, 1⟩ := by
  have h0 : hasNonzeroAlpha img = true := by
    simp only [hasNonzeroAlpha, List.any_eq_true, List.mem_range]
    exact ⟨0, hh, 0, hw, by simp [hop 0 0 hh hw]⟩
  have hrb : rowBounds img = (0, img.height) := by
    rw [rowBounds, transparentRowList_opaque img hop, scanBounds]
  have hcb : colBounds img = (0, img.width) := by
    rw [colBounds, transparentColList_opaque img hop, scanBounds]
  rw [detect_eval img 0 img.height 0 img.width h0 hrb hcb]
  have hw' : ((img.width : ℚ)) ≠ 0 := by
    exact_mod_cast Nat.pos_iff_ne_zero.mp hw
  have hh' : ((img.height : ℚ)) ≠ 0 := by
    exact_mod_cast Nat.pos_iff_ne_zero.mp hh
  simp [div_self hw', div_self hh']

/-- Witness for the amended C1 at a concrete fully opaque image. -/
theorem C1_opaque_detect_witness :
    (0 < opaqueImg.width ∧ 0 < opaqueImg.height ∧
      (∀ r c, r < opaqueImg.height → c < opaqueImg.width →
        opaqueImg.alpha r c = 255)) ∧
    detect opaqueImg = ⟨0, 0, 1, 1⟩ :=
  ⟨⟨by decide, by decide, fun _ _ _ _ => rfl⟩,
    C1_opaque_detect opaqueImg (by decide) (by decide) (fun _ _ _ _ => rfl)⟩

/-- C1 is false as stated: `calculate_frame_photo_area` on the fully
opaque 2 × 2 image stores `{0, 0, 1, 1}` for the path, which is not the
fallback `{0.2, 0.2, 0.6, 0.6}` (the fallback branch needs an empty
alpha bounding box, and a fully opaque alpha channel has a full one). -/
theorem C1_counterexample :
    List.lookup "frame.png"
        (calculate_frame_photo_area [] "frame.png" (.ok opaqueImg)) =
      some ⟨0, 0, 1, 1⟩ ∧
    (⟨0, 0, 1, 1⟩ : Aperture) ≠ fallbackAperture := by
  constructor
  · have hdet : detect opaqueImg = ⟨0, 0, 1, 1⟩ := by
      rw [detect_eval opaqueImg 0 2 0 2 (by decide) (by decide) (by decide)]
      norm_num [opaqueImg]
    simp [calculate_frame_photo_area, calcAperture, List.lookup, hdet]
  · simp only [ne_eq, Aperture.mk.injEq, fallbackAperture]
    norm_num

/-- C7: when decoding or processing a frame image fails, the fallback
aperture is stored for that path; `calcAperture` is a total function of
the decode result, so the error is not propagated. -/
theorem C7_error_fallback (areas : List (String × Aperture))
    (path : String) (e : String) :
    List.lookup path (calculate_frame_photo_area areas path (.error e)) =
      some fallbackAperture := by
  simp [calculate_frame_photo_area, calcAperture, List.lookup]

/-- C8: `next_frame` on an empty frame list is a no-op: the whole state
(index, frames, aperture cache) is returned unchanged. -/
theorem C8_next_frame_empty (decodeOf : String → Except String Img)
    (s : FramesState) (h : s.frames = []) :
    next_frame decodeOf s = s := by
  simp [next_frame, h]

/-- Witness for C8 at the initial (empty) frame state. -/
theorem C8_next_frame_empty_witness :
    initFramesState.frames = [] ∧
    next_frame (fun _ => .error "no decode") initFramesState =
      initFramesState :=
  ⟨rfl, C8_next_frame_empty (fun _ => .error "no decode")
    initFramesState rfl⟩

/-- Iterating `next_image` adds the iteration count modulo the length. -/
theorem next_image_iterate (images : List String) (hne : images ≠ [])
    (index : Nat) (hidx : index < images.length) (k : Nat) :
    Nat.iterate (next_image images) k index =
      (index + k) % images.length := by
  induction k with
  | zero =>
    simp [Nat.mod_eq_of_lt hidx]
  | succ k ih =>
    rw [Function.iterate_succ_apply', ih]
    have hni : next_image images ((index + k) % images.length) =
        ((index + k) % images.length + 1) % images.length := by
      simp [next_image, hne]
    rw [hni, Nat.mod_add_mod, Nat.add_assoc]

/-- C6: on a non-empty photo list, one `next_image` call increments the
index modulo the length, and `len(images)` calls return the index to its
starting value. -/
theorem C6_next_image_cyclic (images : List String) (index : Nat)
    (hne : images ≠ []) (hidx : index < images.length) :
    Nat.iterate (next_image images) images.length index = index ∧
    next_image images index = (index + 1) % images.length := by
  constructor
  · rw [next_image_iterate images hne index hidx images.length,
      Nat.add_mod_right]
    exact Nat.mod_eq_of_lt hidx
  · simp [next_image, hne]

/-- Witness for C6: three photos, starting index 1. -/
theorem C6_next_image_cyclic_witness :
    ((["a.jpg", "b.png", "c.bmp"] : List String) ≠ [] ∧
      1 < (["a.jpg", "b.png", "c.bmp"] : List String).length) ∧
    (Nat.iterate (next_image ["a.jpg", "b.png", "c.bmp"])
        (["a.jpg", "b.png", "c.bmp"] : List String).length 1 = 1 ∧
      next_image ["a.jpg", "b.png", "c.bmp"] 1 =
        (1 + 1) % (["a.jpg", "b.png", "c.bmp"] : List String).length) :=
  ⟨⟨by decide, by decide⟩,
    C6_next_image_cyclic ["a.jpg", "b.png", "c.bmp"] 1 (by decide)
      (by decide)⟩

/-- C2 (amended): when the Frames directory is absent, `load_frames`
returns immediately, so `frames` stays empty but `use_custom_frame`
remains `True` (it is set to `False` only when the directory exists and
holds no frame file); because `frames` is empty,
`get_current_frame_pixmap` returns `None` and every render takes the
procedural branch. -/
theorem C2_missing_frames_dir (files : List String)
    (decodeOf : String → Except String Img) :
    (load_frames false files decodeOf initFramesState).frames = [] ∧
    (load_frames false files decodeOf
      initFramesState).use_custom_frame = true ∧
    ∀ decodeOk,
      paintBranch (load_frames false files decodeOf initFramesState)
        decodeOk = .procedural := by
  refine ⟨rfl, rfl, fun decodeOk => ?_⟩
  simp [load_frames, initFramesState, paintBranch,
    get_current_frame_pixmap]

/-- C2 is false as stated: with the Frames directory absent, startup
loading leaves `use_custom_frame` equal to `True`, not `False`
(`load_frames` returns before reaching the line that clears it). -/
theorem C2_counterexample :
    (load_frames false [] (fun _ => .error "missing")
        initFramesState).use_custom_frame ≠ false := by
  simp [load_frames, initFramesState]

/-- The expanding scale covers the target in both dimensions. -/
theorem scaled_expand_ge (srcW srcH W H : Nat)
    (hsw : 0 < srcW) (hsh : 0 < srcH) :
    W ≤ (scaledKeepAspectByExpanding srcW srcH W H).1 ∧
    H ≤ (scaledKeepAspectByExpanding srcW srcH W H).2 := by
  rw [scaledKeepAspectByExpanding]
  have hw0 : ¬(srcW = 0 || srcH = 0) = true := by
    simp
    omega
  rw [if_neg hw0]
  by_cases hcmp : W ≤ H * srcW / srcH
  · rw [if_pos hcmp]
    exact ⟨hcmp, Nat.le_refl H⟩
  · rw [if_neg hcmp]
    refine ⟨Nat.le_refl W, ?_⟩
    have hlt : H * srcW < W * srcH :=
      (Nat.div_lt_iff_lt_mul hsh).mp (Nat.lt_of_not_le hcmp)
    exact (Nat.le_div_iff_mul_le hsw).mpr (Nat.le_of_lt hlt)

/-- C5: for positive target `W × H` and a positive-size source, the
cover-and-crop step of `paintEvent` (scale with
`KeepAspectRatioByExpanding`, then `copy` a centered `W × H` rectangle)
yields exactly `W × H` pixels, and the copied rectangle lies entirely
inside the scaled image, so nothing is letterboxed. -/
theorem C5_cover_crop_exact (srcW srcH W H : Nat)
    (hsw : 0 < srcW) (hsh : 0 < srcH) (hW : 0 < W) (hH : 0 < H) :
    croppedSize W H = (W, H) ∧
    W ≤ (scaledKeepAspectByExpanding srcW srcH W H).1 ∧
    H ≤ (scaledKeepAspectByExpanding srcW srcH W H).2 ∧
    cropWithin (scaledKeepAspectByExpanding srcW srcH W H).1
      (scaledKeepAspectByExpanding srcW srcH W H).2
      (cropOffsets (scaledKeepAspectByExpanding srcW srcH W H).1
        (scaledKeepAspectByExpanding srcW srcH W H).2 W H).1
      (cropOffsets (scaledKeepAspectByExpanding srcW srcH W H).1
        (scaledKeepAspectByExpanding srcW srcH W H).2 W H).2
      W H = true := by
  obtain ⟨h1, h2⟩ := scaled_expand_ge srcW srcH W H hsw hsh
  refine ⟨rfl, h1, h2, ?_⟩
  simp only [cropWithin, cropOffsets, decide_eq_true_eq]
  omega

/-- Witness for C5: an 800 × 600 photo into a 300 × 300 rectangle. -/
theorem C5_cover_crop_exact_witness :
    (0 < 800 ∧ 0 < 600 ∧ 0 < 300 ∧ 0 < 300) ∧
    (croppedSize 300 300 = (300, 300) ∧
      300 ≤ (scaledKeepAspectByExpanding 800 600 300 300).1 ∧
      300 ≤ (scaledKeepAspectByExpanding 800 600 300 300).2 ∧
      cropWithin (scaledKeepAspectByExpanding 800 600 300 300).1
        (scaledKeepAspectByExpanding 800 600 300 300).2
        (cropOffsets (scaledKeepAspectByExpanding 800 600 300 300).1
          (scaledKeepAspectByExpanding 800 600 300 300).2 300 300).1
        (cropOffsets (scaledKeepAspectByExpanding 800 600 300 300).1
          (scaledKeepAspectByExpanding 800 600 300 300).2 300 300).2
        300 300 = true) :=
  ⟨⟨by decide, by decide, by decide, by decide⟩,
    C5_cover_crop_exact 800 600 300 300 (by decide) (by decide)
      (by decide) (by decide)⟩

/-- While locked, one mouse event leaves position, size and the lock
flag unchanged. -/
theorem stepEvent_locked (e : MouseEvent) (s : WidgetState)
    (h : s.is_locked = true) :
    (stepEvent e s).posx = s.posx ∧ (stepEvent e s).posy = s.posy ∧
    (stepEvent e s).width = s.width ∧
    (stepEvent e s).height = s.height ∧
    (stepEvent e s).is_locked = true := by
  cases e <;>
    simp [stepEvent, mousePressEvent, mouseMoveEvent, mouseReleaseEvent, h]

/-- C9: while `is_locked` is true, `mousePressEvent` and
`mouseMoveEvent` return without touching the state, so any sequence of
mouse events (presses, drags and releases) leaves the window position
and size unchanged. -/
theorem C9_locked_drag_noop (s : WidgetState) (h : s.is_locked = true)
    (es : List MouseEvent) :
    (runEvents es s).posx = s.posx ∧ (runEvents es s).posy = s.posy ∧
    (runEvents es s).width = s.width ∧
    (runEvents es s).height = s.height := by
  induction es generalizing s with
  | nil => exact ⟨rfl, rfl, rfl, rfl⟩
  | cons e rest ih =>
    have hs := stepEvent_locked e s h
    have hrest := ih (stepEvent e s) hs.2.2.2.2
    have hrun : runEvents (e :: rest) s = runEvents rest (stepEvent e s) :=
      rfl
    rw [hrun]
    exact ⟨hrest.1.trans hs.1, hrest.2.1.trans hs.2.1,
      hrest.2.2.1.trans hs.2.2.1, hrest.2.2.2.trans hs.2.2.2.1⟩

/-- Witness for C9: a locked widget hit by a drag attempt
(press inside, two moves, release). -/
theorem C9_locked_drag_noop_witness :
    lockedWidget.is_locked = true ∧
    ((runEvents [MouseEvent.press true 50 50 150 150,
        MouseEvent.move 400 400, MouseEvent.move 700 20,
        MouseEvent.release] lockedWidget).posx = lockedWidget.posx ∧
      (runEvents [MouseEvent.press true 50 50 150 150,
        MouseEvent.move 400 400, MouseEvent.move 700 20,
        MouseEvent.release] lockedWidget).posy = lockedWidget.posy ∧
      (runEvents [MouseEvent.press true 50 50 150 150,
        MouseEvent.move 400 400, MouseEvent.move 700 20,
        MouseEvent.release] lockedWidget).width = lockedWidget.width ∧
      (runEvents [MouseEvent.press true 50 50 150 150,
        MouseEvent.move 400 400, MouseEvent.move 700 20,
        MouseEvent.release] lockedWidget).height = lockedWidget.height) :=
  ⟨rfl, C9_locked_drag_noop lockedWidget rfl
    [MouseEvent.press true 50 50 150 150, MouseEvent.move 400 400,
      MouseEvent.move 700 20, MouseEvent.release]⟩

/-- C10: a mouse move processed while resizing (and not locked or
click-through) clamps the new size to at least 240 × 180, however far
the cursor travels up or left. -/
theorem C10_resize_clamped (gx gy : Int) (s : WidgetState)
    (hr : s.resizing = true) (hl : s.is_locked = false)
    (hc : s.click_through = false) :
    240 ≤ (mouseMoveEvent gx gy s).width ∧
    180 ≤ (mouseMoveEvent gx gy s).height := by
  simp only [mouseMoveEvent, hr, hl, hc, Bool.or_self, Bool.false_eq_true,
    if_false, if_true, if_pos]
  constructor <;> simp

/-- Witness for C10: the cursor jumps far above and left of the origin,
yet the size stays clamped at the minimum. -/
theorem C10_resize_clamped_witness :
    (resizingWidget.resizing = true ∧
      resizingWidget.is_locked = false ∧
      resizingWidget.click_through = false) ∧
    (240 ≤ (mouseMoveEvent (-5000) (-5000) resizingWidget).width ∧
      180 ≤ (mouseMoveEvent (-5000) (-5000) resizingWidget).height) :=
  ⟨⟨rfl, rfl, rfl⟩,
    C10_resize_clamped (-5000) (-5000) resizingWidget rfl rfl rfl⟩

/-- Filtering a contiguous index range by membership in `[r0, r1]`
yields the contiguous overlap. -/
theorem filter_range'_interval (r0 r1 : Nat) :
    ∀ n s : Nat,
      (List.range' s n).filter (fun x => decide (r0 ≤ x ∧ x ≤ r1)) =
        List.range' (max s r0) (min (s + n) (r1 + 1) - max s r0) := by
  intro n
  induction n with
  | zero =>
    intro s
    have h : min (s + 0) (r1 + 1) - max s r0 = 0 := by omega
    rw [h]
    rfl
  | succ n ih =>
    intro s
    rw [List.range'_succ, List.filter_cons]
    by_cases hp : r0 ≤ s ∧ s ≤ r1
    · rw [decide_eq_true hp, if_pos rfl, ih (s + 1)]
      have hmax1 : max (s + 1) r0 = s + 1 := by omega
      have hmax0 : max s r0 = s := by omega
      have hcount : min (s + (n + 1)) (r1 + 1) - max s r0 =
          (min (s + 1 + n) (r1 + 1) - max (s + 1) r0) + 1 := by
        omega
      rw [hcount, hmax0, List.range'_succ, hmax1]
    · rw [decide_eq_false hp, if_neg (by simp), ih (s + 1)]
      rcases Nat.lt_or_ge s r0 with hlt | hge
      · have hmax : max (s + 1) r0 = max s r0 := by omega
        have hcount : min (s + 1 + n) (r1 + 1) = min (s + (n + 1)) (r1 + 1) := by
          omega
        rw [hmax, hcount]
      · have hr1s : r1 < s := by omega
        have h1 : min (s + 1 + n) (r1 + 1) - max (s + 1) r0 = 0 := by omega
        have h2 : min (s + (n + 1)) (r1 + 1) - max s r0 = 0 := by omega
        rw [h1, h2]
        rfl

/-- In a rectangle row, the transparent pixels are exactly the columns
`[c0, c1]`. -/
theorem rectImg_rowCount_inside (w h r0 r1 c0 c1 r : Nat)
    (hr : r0 ≤ r ∧ r ≤ r1) (hc1 : c1 < w) :
    transparentRowCount (rectImg w h r0 r1 c0 c1) r = c1 + 1 - c0 := by
  rw [transparentRowCount]
  have hcongr :
      (List.range w).filter
          (fun c => decide ((rectImg w h r0 r1 c0 c1).alpha r c < 250)) =
        (List.range w).filter (fun c => decide (c0 ≤ c ∧ c ≤ c1)) := by
    apply List.filter_congr
    intro c _
    by_cases hcc : c0 ≤ c ∧ c ≤ c1
    · have : (rectImg w h r0 r1 c0 c1).alpha r c = 0 := by
        simp [rectImg, hr.1, hr.2, hcc.1, hcc.2]
      simp [this, hcc]
    · have : (rectImg w h r0 r1 c0 c1).alpha r c = 255 := by
        rcases Decidable.not_and_iff_or_not.mp hcc with hc | hc <;>
          simp [rectImg] <;> intro h1 h2 <;> omega
      simp [this, hcc]
  show ((List.range w).filter
      (fun c => decide ((rectImg w h r0 r1 c0 c1).alpha r c < 250))).length =
    c1 + 1 - c0
  rw [hcongr, List.range_eq_range', filter_range'_interval c0 c1 w 0,
    List.length_range']
  omega

/-- Outside the rectangle rows, no pixel is transparent. -/
theorem rectImg_rowCount_outside (w h r0 r1 c0 c1 r : Nat)
    (hr : ¬(r0 ≤ r ∧ r ≤ r1)) :
    transparentRowCount (rectImg w h r0 r1 c0 c1) r = 0 := by
  rw [transparentRowCount, List.length_eq_zero, List.filter_eq_nil_iff]
  intro c _
  have : (rectImg w h r0 r1 c0 c1).alpha r c = 255 := by
    rcases Decidable.not_and_iff_or_not.mp hr with h1 | h1 <;>
      simp [rectImg] <;> intro h2 h3 <;> omega
  simp [this]

/-- In a rectangle column, the transparent pixels are exactly the rows
`[r0, r1]`. -/
theorem rectImg_colCount_inside (w h r0 r1 c0 c1 c : Nat)
    (hc : c0 ≤ c ∧ c ≤ c1) (hr1 : r1 < h) :
    transparentColCount (rectImg w h r0 r1 c0 c1) c = r1 + 1 - r0 := by
  rw [transparentColCount]
  have hcongr :
      (List.range h).filter
          (fun r => decide ((rectImg w h r0 r1 c0 c1).alpha r c < 250)) =
        (List.range h).filter (fun r => decide (r0 ≤ r ∧ r ≤ r1)) := by
    apply List.filter_congr
    intro r _
    by_cases hrr : r0 ≤ r ∧ r ≤ r1
    · have : (rectImg w h r0 r1 c0 c1).alpha r c = 0 := by
        simp [rectImg, hrr.1, hrr.2, hc.1, hc.2]
      simp [this, hrr]
    · have : (rectImg w h r0 r1 c0 c1).alpha r c = 255 := by
        rcases Decidable.not_and_iff_or_not.mp hrr with h1 | h1 <;>
          simp [rectImg] <;> intro h2 h3 <;> omega
      simp [this, hrr]
  show ((List.range h).filter
      (fun r => decide ((rectImg w h r0 r1 c0 c1).alpha r c < 250))).length =
    r1 + 1 - r0
  rw [hcongr, List.range_eq_range', filter_range'_interval r0 r1 h 0,
    List.length_range']
  omega

/-- Outside the rectangle columns, no pixel is transparent. -/
theorem rectImg_colCount_outside (w h r0 r1 c0 c1 c : Nat)
    (hc : ¬(c0 ≤ c ∧ c ≤ c1)) :
    transparentColCount (rectImg w h r0 r1 c0 c1) c = 0 := by
  rw [transparentColCount, List.length_eq_zero, List.filter_eq_nil_iff]
  intro r _
  have : (rectImg w h r0 r1 c0 c1).alpha r c = 255 := by
    rcases Decidable.not_and_iff_or_not.mp hc with h1 | h1 <;>
      simp [rectImg] <;> intro h2 h3 h4 <;> omega
  simp [this]

/-- The transparent rows of a rectangle image are exactly `[r0, r1]`
when the hole spans more than half of each row it touches. -/
theorem rectImg_rowList (w h r0 r1 c0 c1 : Nat)
    (hr1 : r1 < h) (hc1 : c1 < w) (hrow : w < 2 * (c1 + 1 - c0)) :
    transparentRowList (rectImg w h r0 r1 c0 c1) =
      List.range' r0 (r1 + 1 - r0) := by
  rw [transparentRowList]
  show (List.range h).filter
      (fun r => rowTransparent (rectImg w h r0 r1 c0 c1) r) = _
  have hcongr : (List.range h).filter
      (fun r => rowTransparent (rectImg w h r0 r1 c0 c1) r) =
      (List.range h).filter (fun r => decide (r0 ≤ r ∧ r ≤ r1)) := by
    apply List.filter_congr
    intro r _
    by_cases hr : r0 ≤ r ∧ r ≤ r1
    · rw [rowTransparent,
        rectImg_rowCount_inside w h r0 r1 c0 c1 r hr hc1]
      simp only [rectImg, decide_eq_true_eq, decide_eq_true hr]
      exact hrow
    · rw [rowTransparent, rectImg_rowCount_outside w h r0 r1 c0 c1 r hr]
      simp [hr]
  rw [hcongr, List.range_eq_range', filter_range'_interval r0 r1 h 0]
  have h1 : max 0 r0 = r0 := by omega
  have h2 : min (0 + h) (r1 + 1) = r1 + 1 := by omega
  rw [h1, h2]

/-- The transparent columns of a rectangle image are exactly `[c0, c1]`
when the hole spans more than half of each column it touches. -/
theorem rectImg_colList (w h r0 r1 c0 c1 : Nat)
    (hr1 : r1 < h) (hc1 : c1 < w) (hcol : h < 2 * (r1 + 1 - r0)) :
    transparentColList (rectImg w h r0 r1 c0 c1) =
      List.range' c0 (c1 + 1 - c0) := by
  rw [transparentColList]
  show (List.range w).filter
      (fun c => colTransparent (rectImg w h r0 r1 c0 c1) c) = _
  have hcongr : (List.range w).filter
      (fun c => colTransparent (rectImg w h r0 r1 c0 c1) c) =
      (List.range w).filter (fun c => decide (c0 ≤ c ∧ c ≤ c1)) := by
    apply List.filter_congr
    intro c _
    by_cases hc : c0 ≤ c ∧ c ≤ c1
    · rw [colTransparent,
        rectImg_colCount_inside w h r0 r1 c0 c1 c hc hr1]
      simp only [rectImg, decide_eq_true_eq, decide_eq_true hc]
      exact hcol
    · rw [colTransparent, rectImg_colCount_outside w h r0 r1 c0 c1 c hc]
      simp [hc]
  rw [hcongr, List.range_eq_range', filter_range'_interval c0 c1 w 0]
  have h1 : max 0 c0 = c0 := by omega
  have h2 : min (0 + w) (c1 + 1) = c1 + 1 := by omega
  rw [h1, h2]

/-- The last element of a non-empty contiguous range. -/
theorem getLast?_range' (s k : Nat) :
    (List.range' s (k + 1)).getLast? = some (s + k) := by
  rw [List.range'_concat, List.getLast?_concat]
  norm_num

/-- The second scan bound is the last index (or the default). -/
theorem scanBounds_snd_getLast? (l : List Nat) (dflt : Nat) :
    (scanBounds l dflt).2 = l.getLast?.getD dflt := by
  match l with
  | [] => rfl
  | a :: t =>
    rw [scanBounds]
    simp [List.getLast?_eq_getLast (a :: t) (List.cons_ne_nil a t)]

/-- Scan bounds of a non-empty contiguous range are its endpoints. -/
theorem scanBounds_range' (s k dflt : Nat) :
    scanBounds (List.range' s (k + 1)) dflt = (s, s + k) := by
  have h2 := scanBounds_snd_getLast? (List.range' s (k + 1)) dflt
  rw [getLast?_range', Option.getD_some] at h2
  have h1 : (scanBounds (List.range' s (k + 1)) dflt).1 = s := by
    rw [List.range'_succ]
    rfl
  rw [Prod.ext_iff]
  exact ⟨h1, h2⟩

/-- Row bounds of a rectangle image: `(r0, r1)`. -/
theorem rectImg_rowBounds (w h r0 r1 c0 c1 : Nat) (hr01 : r0 ≤ r1)
    (hr1 : r1 < h) (hc1 : c1 < w) (hrow : w < 2 * (c1 + 1 - c0)) :
    rowBounds (rectImg w h r0 r1 c0 c1) = (r0, r1) := by
  rw [rowBounds]
  show scanBounds (transparentRowList (rectImg w h r0 r1 c0 c1)) h = _
  rw [rectImg_rowList w h r0 r1 c0 c1 hr1 hc1 hrow]
  have hk : r1 + 1 - r0 = (r1 - r0) + 1 := by omega
  rw [hk, scanBounds_range']
  have hsum : r0 + (r1 - r0) = r1 := by omega
  rw [hsum]

/-- Column bounds of a rectangle image: `(c0, c1)`. -/
theorem rectImg_colBounds (w h r0 r1 c0 c1 : Nat) (hc01 : c0 ≤ c1)
    (hr1 : r1 < h) (hc1 : c1 < w) (hcol : h < 2 * (r1 + 1 - r0)) :
    colBounds (rectImg w h r0 r1 c0 c1) = (c0, c1) := by
  rw [colBounds]
  show scanBounds (transparentColList (rectImg w h r0 r1 c0 c1)) w = _
  rw [rectImg_colList w h r0 r1 c0 c1 hr1 hc1 hcol]
  have hk : c1 + 1 - c0 = (c1 - c0) + 1 := by omega
  rw [hk, scanBounds_range']
  have hsum : c0 + (c1 - c0) = c1 := by omega
  rw [hsum]

/-- A rectangle image with at least one pixel outside the hole has a
non-empty alpha bounding box. -/
theorem rectImg_hasNonzeroAlpha (w h r0 r1 c0 c1 : Nat)
    (hop : ∃ r c, r < h ∧ c < w ∧
      ¬(r0 ≤ r ∧ r ≤ r1 ∧ c0 ≤ c ∧ c ≤ c1)) :
    hasNonzeroAlpha (rectImg w h r0 r1 c0 c1) = true := by
  obtain ⟨r, c, hr, hc, hcond⟩ := hop
  simp only [hasNonzeroAlpha, List.any_eq_true, List.mem_range]
  refine ⟨r, hr, c, hc, ?_⟩
  have ha : (rectImg w h r0 r1 c0 c1).alpha r c = 255 := by
    show (if r0 ≤ r ∧ r ≤ r1 ∧ c0 ≤ c ∧ c ≤ c1 then 0 else 255) = 255
    rw [if_neg hcond]
  simp [ha]

/-- C3 (amended): for a frame image whose alpha channel is 0 exactly on
the rectangle of rows `[r0, r1]` and columns `[c0, c1]` (opaque
elsewhere, with at least one opaque pixel), where the hole spans more
than half of every row and column it touches, the detector stores
ratios whose pixel rectangle starts exactly at the region's top-left
corner `(c0, r0)` but whose extents are `c1 - c0` and `r1 - r0`: one
pixel smaller than the region in each dimension, because the code uses
the inclusive last transparent index as `right`/`bottom` and subtracts
(`width_ratio = (right - left) / width`). -/
theorem C3_rect_detect (w h r0 r1 c0 c1 : Nat)
    (hr01 : r0 ≤ r1) (hr1 : r1 < h) (hc01 : c0 ≤ c1) (hc1 : c1 < w)
    (hrow : w < 2 * (c1 + 1 - c0)) (hcol : h < 2 * (r1 + 1 - r0))
    (hop : ∃ r c, r < h ∧ c < w ∧
      ¬(r0 ≤ r ∧ r ≤ r1 ∧ c0 ≤ c ∧ c ≤ c1)) :
    detect (rectImg w h r0 r1 c0 c1) =
      ⟨(c0 : ℚ) / w, (r0 : ℚ) / h, ((c1 : ℚ) - c0) / w,
        ((r1 : ℚ) - r0) / h⟩ := by
  rw [detect_eval (rectImg w h r0 r1 c0 c1) r0 r1 c0 c1
    (rectImg_hasNonzeroAlpha w h r0 r1 c0 c1 hop)
    (rectImg_rowBounds w h r0 r1 c0 c1 hr01 hr1 hc1 hrow)
    (rectImg_colBounds w h r0 r1 c0 c1 hc01 hr1 hc1 hcol)]
  rfl

/-- Witness for the amended C3: a 3 × 3 hole at rows/columns 1–3 of a
5 × 5 frame; the detector reports offset (1/5, 1/5) and extents
(2/5, 2/5), i.e. 2 pixels, not the hole's 3. -/
theorem C3_rect_detect_witness :
    (1 ≤ 3 ∧ 3 < 5 ∧ 5 < 2 * (3 + 1 - 1) ∧
      (∃ r c, r < 5 ∧ c < 5 ∧
        ¬(1 ≤ r ∧ r ≤ 3 ∧ 1 ≤ c ∧ c ≤ 3))) ∧
    detect (rectImg 5 5 1 3 1 3) = ⟨1/5, 1/5, 2/5, 2/5⟩ :=
  ⟨⟨by decide, by decide, by decide,
      ⟨0, 0, by decide, by decide, by decide⟩⟩,
    (C3_rect_detect 5 5 1 3 1 3 (by decide) (by decide) (by decide)
        (by decide) (by decide) (by decide)
        ⟨0, 0, by decide, by decide, by decide⟩).trans (by norm_num)⟩

/-- C3 is false as stated: on a 4 × 4 frame whose transparent region is
the 3 × 3 rectangle of rows 0–2 and columns 0–2, the stored ratios give
the pixel rectangle (0, 0, 2, 2) — `width_ratio * 4 = 2 ≠ 3` — so the
rectangle does not equal the 3-pixel-wide region even within rounding. -/
theorem C3_counterexample :
    detect (rectImg 4 4 0 2 0 2) = ⟨0, 0, 1/2, 1/2⟩ ∧
    (detect (rectImg 4 4 0 2 0 2)).width_ratio * 4 ≠ 3 ∧
    (detect (rectImg 4 4 0 2 0 2)).height_ratio * 4 ≠ 3 := by
  have hdet : detect (rectImg 4 4 0 2 0 2) = ⟨0, 0, 1/2, 1/2⟩ := by
    rw [detect_eval (rectImg 4 4 0 2 0 2) 0 2 0 2 (by decide) (by decide)
      (by decide)]
    norm_num [rectImg]
  refine ⟨hdet, ?_, ?_⟩ <;> rw [hdet] <;> norm_num
